import Mathlib

/-!
Verification of the vixcpp/sync durable outbox and sync engine.

The definitions below are a shallow embedding of the C++ sources:

* `OperationStatus`, `Operation`  — `include/vix/sync/Operation.hpp`
* `FileOutboxStore.*`             — `src/outbox/FileOutboxStore.cpp`
  (the in-memory map `ops_` / `owner_` is modelled as association lists;
  the JSON flush is pure persistence and does not affect the observable
  state transitions the claims speak about)
* `RetryPolicy.*`                 — `include/vix/sync/RetryPolicy.hpp`
  (C++ `double` arithmetic is modelled by exact rationals)
* `Outbox.*`                      — `src/outbox/Outbox.cpp`
* `SyncWorker.*`                  — `src/engine/SyncWorker.cpp`
* `Wal.*` / `WalWriter` / `WalReader` — `src/wal/*.cpp`
  (a file is a list of bytes, each byte a `Nat < 256`)
-/

namespace VixSync

/-- Model of `enum class OperationStatus : uint8_t` from Operation.hpp
(`Pending = 0, InFlight, Done, Failed, PermanentFailed`). -/
inductive OperationStatus where
  | Pending
  | InFlight
  | Done
  | Failed
  | PermanentFailed
deriving DecidableEq

/-- Model of `struct Operation` from Operation.hpp.  `attempt` is a `std::uint32_t`;
increments in the code are modelled with an explicit `% 2 ^ 32`. -/
structure Operation where
  id : String
  kind : String := ""
  target : String := ""
  payload : String := ""
  idempotency_key : String := ""
  created_at_ms : Int := 0
  updated_at_ms : Int := 0
  attempt : Nat := 0
  next_retry_at_ms : Int := 0
  status : OperationStatus := OperationStatus.Pending
  last_error : String := ""
deriving DecidableEq

/-- First-match lookup in an association list (maps model
`std::unordered_map`; lookups read the first entry with the key). -/
def lookupKey {α : Type} (l : List (String × α)) (k : String) : Option α :=
  (l.find? (fun p => p.1 = k)).map (fun p => p.2)

/-- Model of `m[k] = v` on an association list: overwrite the entry in place when the
key is present, append otherwise. -/
def setKey {α : Type} (l : List (String × α)) (k : String) (v : α) :
    List (String × α) :=
  if l.any (fun p => p.1 = k) then
    l.map (fun p => if p.1 = k then (k, v) else p)
  else
    l ++ [(k, v)]

/-- Model of `m.erase(k)` on an association list. -/
def eraseKey {α : Type} (l : List (String × α)) (k : String) :
    List (String × α) :=
  l.filter (fun p => p.1 ≠ k)

/-- In-memory state of `FileOutboxStore`: the `ops_` map and the `owner_`
side table (file persistence reproduces exactly this state). -/
structure FileOutboxStore where
  ops : List (String × Operation) := []
  owner : List (String × String) := []
deriving DecidableEq

/-- Model of `ListOptions` from OutboxStore.hpp. -/
structure ListOptions where
  limit : Nat := 50
  now_ms : Int := 0
  only_ready : Bool := true
  include_inflight : Bool := false

/-- Model of `FileOutboxStore::put`. -/
def FileOutboxStore.put (s : FileOutboxStore) (op : Operation) :
    FileOutboxStore :=
  { s with ops := setKey s.ops op.id op }

/-- Model of `FileOutboxStore::get`. -/
def FileOutboxStore.get (s : FileOutboxStore) (id : String) :
    Option Operation :=
  lookupKey s.ops id

/-- The loop body of `FileOutboxStore::list`: walk `ops_`, skip entries per
the options, push the rest, and stop once `out.size() >= opt.limit`
(the size test runs after each push, exactly as in the C++ loop). -/
def listGo (opt : ListOptions) : Nat → List (String × Operation) →
    List Operation
  | _, [] => []
  | count, (_, op) :: rest =>
    if opt.include_inflight = false ∧ op.status = OperationStatus.InFlight then
      listGo opt count rest
    else if opt.only_ready = true ∧ ¬ op.next_retry_at_ms ≤ opt.now_ms then
      listGo opt count rest
    else if op.status = OperationStatus.Done then
      listGo opt count rest
    else if op.status = OperationStatus.PermanentFailed then
      listGo opt count rest
    else if opt.limit ≤ count + 1 then
      [op]
    else
      op :: listGo opt (count + 1) rest

/-- Model of `FileOutboxStore::list`. -/
def FileOutboxStore.list (s : FileOutboxStore) (opt : ListOptions) :
    List Operation :=
  listGo opt 0 s.ops

/-- Model of `FileOutboxStore::claim`: refuse when the op is absent, `Done`, or
`InFlight`; otherwise move it to `InFlight`, stamp `updated_at_ms`, and
record the owner.  Returns the C++ `bool` paired with the updated state. -/
def FileOutboxStore.claim (s : FileOutboxStore) (id owner : String)
    (now_ms : Int) : Bool × FileOutboxStore :=
  match lookupKey s.ops id with
  | none => (false, s)
  | some op =>
    if op.status = OperationStatus.Done then (false, s)
    else if op.status = OperationStatus.InFlight then (false, s)
    else
      let op2 := { op with status := OperationStatus.InFlight,
                           updated_at_ms := now_ms }
      (true, { ops := setKey s.ops id op2, owner := setKey s.owner id owner })

/-- Model of `FileOutboxStore::mark_done`. -/
def FileOutboxStore.mark_done (s : FileOutboxStore) (id : String)
    (now_ms : Int) : Bool × FileOutboxStore :=
  match lookupKey s.ops id with
  | none => (false, s)
  | some op =>
    let op2 := { op with status := OperationStatus.Done,
                         updated_at_ms := now_ms,
                         last_error := "" }
    (true, { ops := setKey s.ops id op2, owner := eraseKey s.owner id })

/-- Model of `FileOutboxStore::mark_failed`. -/
def FileOutboxStore.mark_failed (s : FileOutboxStore) (id error : String)
    (now_ms next_retry_at_ms : Int) : Bool × FileOutboxStore :=
  match lookupKey s.ops id with
  | none => (false, s)
  | some op =>
    let op2 := { op with status := OperationStatus.Failed,
                         last_error := error,
                         updated_at_ms := now_ms,
                         next_retry_at_ms := next_retry_at_ms }
    (true, { ops := setKey s.ops id op2, owner := eraseKey s.owner id })

/-- Model of `FileOutboxStore::mark_permanent_failed`. -/
def FileOutboxStore.mark_permanent_failed (s : FileOutboxStore)
    (id error : String) (now_ms : Int) : Bool × FileOutboxStore :=
  match lookupKey s.ops id with
  | none => (false, s)
  | some op =>
    let op2 := { op with status := OperationStatus.PermanentFailed,
                         last_error := error,
                         updated_at_ms := now_ms,
                         next_retry_at_ms := now_ms }
    (true, { ops := setKey s.ops id op2, owner := eraseKey s.owner id })

/-- The per-entry requeue condition of
`FileOutboxStore::requeue_inflight_older_than`:
`status == InFlight && !(now - updated_at < timeout)`. -/
def requeueHits (now_ms timeout_ms : Int) (op : Operation) : Prop :=
  op.status = OperationStatus.InFlight ∧ timeout_ms ≤ now_ms - op.updated_at_ms

instance (now_ms timeout_ms : Int) (op : Operation) :
    Decidable (requeueHits now_ms timeout_ms op) := by
  unfold requeueHits
  infer_instance

/-- The mutation applied to a requeued operation. -/
def requeueXform (now_ms : Int) (op : Operation) : Operation :=
  { op with status := OperationStatus.Failed,
            attempt := (op.attempt + 1) % 2 ^ 32,
            updated_at_ms := now_ms,
            next_retry_at_ms := now_ms,
            last_error := "requeued after inflight timeout" }

/-- The loop of `FileOutboxStore::requeue_inflight_older_than`: walk `ops_`;
every hit is rewritten in place, its owner entry erased and the counter
bumped. -/
def requeueGo (now_ms timeout_ms : Int) :
    List (String × Operation) → List (String × String) → Nat →
    List (String × Operation) × List (String × String) × Nat
  | [], ow, c => ([], ow, c)
  | (id, op) :: rest, ow, c =>
    if requeueHits now_ms timeout_ms op then
      let r := requeueGo now_ms timeout_ms rest (eraseKey ow id) (c + 1)
      ((id, requeueXform now_ms op) :: r.1, r.2)
    else
      let r := requeueGo now_ms timeout_ms rest ow c
      ((id, op) :: r.1, r.2)

/-- Model of `FileOutboxStore::requeue_inflight_older_than`. -/
def FileOutboxStore.requeue_inflight_older_than (s : FileOutboxStore)
    (now_ms timeout_ms : Int) : Nat × FileOutboxStore :=
  let r := requeueGo now_ms timeout_ms s.ops s.owner 0
  (r.2.2, { ops := r.1, owner := r.2.1 })

/-- Truncation toward zero, the semantics of
`static_cast<std::int64_t>(d)` for a real value `d` (modelled exactly on
rationals). -/
def ratTruncToInt (q : ℚ) : Int :=
  if q < 0 then -(⌊-q⌋) else ⌊q⌋

/-- Model of `std::clamp(v, lo, hi)`: `v < lo ? lo : hi < v ? hi : v`. -/
def clampInt (v lo hi : Int) : Int :=
  if v < lo then lo else if hi < v then hi else v

/-- Model of `struct RetryPolicy` from RetryPolicy.hpp.  `factor` is a C++ `double`,
modelled as an exact rational (the `jitter_ratio` field is never read by the
core and is omitted). -/
structure RetryPolicy where
  max_attempts : Nat := 8
  base_delay_ms : Int := 500
  max_delay_ms : Int := 30000
  factor : ℚ := 2

/-- Model of `RetryPolicy::can_retry`. -/
def RetryPolicy.can_retry (p : RetryPolicy) (attempt : Nat) : Bool :=
  attempt < p.max_attempts

/-- The loop of `RetryPolicy::compute_delay_ms`:
`d = base; for i in [0, attempt) d *= factor`. -/
def mulLoop (base factor : ℚ) : Nat → ℚ
  | 0 => base
  | n + 1 => mulLoop base factor n * factor

/-- Model of `RetryPolicy::compute_delay_ms`. -/
def RetryPolicy.compute_delay_ms (p : RetryPolicy) (attempt : Nat) : Int :=
  clampInt (ratTruncToInt (mulLoop (p.base_delay_ms : ℚ) p.factor attempt))
    p.base_delay_ms p.max_delay_ms

/-- Model of `Outbox::Config` (Outbox.hpp): the owner identity and retry policy
(the id-generation flags only affect `enqueue`, which no claim uses). -/
structure OutboxConfig where
  owner : String := "vix-sync"
  retry : RetryPolicy := {}

/-- Model of `Outbox::peek_ready`: `store_->list({limit, now, only_ready = true,
include_inflight = false})`. -/
def Outbox.peek_ready (s : FileOutboxStore) (now_ms : Int) (limit : Nat) :
    List Operation :=
  FileOutboxStore.list s
    { limit := limit, now_ms := now_ms,
      only_ready := true, include_inflight := false }

/-- Model of `Outbox::claim`: delegate to the store with the configured owner. -/
def Outbox.claim (cfg : OutboxConfig) (s : FileOutboxStore) (id : String)
    (now_ms : Int) : Bool × FileOutboxStore :=
  FileOutboxStore.claim s id cfg.owner now_ms

/-- Model of `Outbox::complete`: delegate to `store_->mark_done`. -/
def Outbox.complete (s : FileOutboxStore) (id : String) (now_ms : Int) :
    Bool × FileOutboxStore :=
  FileOutboxStore.mark_done s id now_ms

/-- Model of `Outbox::fail` (Outbox.cpp): fetch the op, bump a local copy of
`attempt`, then route to `mark_permanent_failed` / `mark_failed` according
to `retryable` and the retry policy.  Note the bumped copy is never written
back to the store. -/
def Outbox.fail (cfg : OutboxConfig) (s : FileOutboxStore) (id error : String)
    (now_ms : Int) (retryable : Bool) : Bool × FileOutboxStore :=
  match FileOutboxStore.get s id with
  | none => (false, s)
  | some cur =>
    let attempt2 := (cur.attempt + 1) % 2 ^ 32
    if retryable = false then
      FileOutboxStore.mark_permanent_failed s id error now_ms
    else if cfg.retry.can_retry attempt2 = false then
      FileOutboxStore.mark_failed s id error now_ms now_ms
    else
      FileOutboxStore.mark_failed s id error now_ms
        (now_ms + cfg.retry.compute_delay_ms attempt2)

/-- Model of `SendResult` from SyncWorker.hpp. -/
structure SendResult where
  ok : Bool := false
  retryable : Bool := true
  error : String := ""

/-- Model of `SyncWorker::Config` (the sleep durations only matter to the self-driven
engine thread, which no claim covers). -/
structure SyncWorkerConfig where
  batch_limit : Nat := 25
  inflight_timeout_ms : Int := 10000

/-- One observable step of the worker: processed count, resulting store
state, and the trace of `transport.send` invocations made. -/
structure TickResult where
  processed : Nat
  store : FileOutboxStore
  sends : List Operation
deriving DecidableEq

/-- The loop of `SyncWorker::process_ready_`: claim each candidate (skip on
failure), send — or fabricate the "No transport configured" failure — and
record the outcome. -/
def processGo (cfg : OutboxConfig)
    (transport : Option (Operation → SendResult)) (now_ms : Int) :
    List Operation → FileOutboxStore → Nat → List Operation → TickResult
  | [], s, processed, sends =>
    { processed := processed, store := s, sends := sends }
  | op :: rest, s, processed, sends =>
    let c := Outbox.claim cfg s op.id now_ms
    if c.1 = false then
      processGo cfg transport now_ms rest c.2 processed sends
    else
      let r : SendResult :=
        match transport with
        | some t => t op
        | none =>
          { ok := false, retryable := true, error := "No transport configured" }
      let sends2 :=
        match transport with
        | some _ => sends ++ [op]
        | none => sends
      let s2 :=
        if r.ok = true then
          (Outbox.complete c.2 op.id now_ms).2
        else
          (Outbox.fail cfg c.2 op.id
            (if r.error = "" then "send failed" else r.error)
            now_ms r.retryable).2
      processGo cfg transport now_ms rest s2 (processed + 1) sends2

/-- Model of `SyncWorker::process_ready_`. -/
def SyncWorker.process_ready (wcfg : SyncWorkerConfig) (cfg : OutboxConfig)
    (transport : Option (Operation → SendResult)) (now_ms : Int)
    (s : FileOutboxStore) : TickResult :=
  let ops := Outbox.peek_ready s now_ms wcfg.batch_limit
  if ops = [] then { processed := 0, store := s, sends := [] }
  else processGo cfg transport now_ms ops s 0 []

/-- Model of `SyncWorker::tick`: sweep stuck in-flight ops, gate on the reachability
probe (`should_send_`), then process the ready batch.  `probe now` models
`probe_->refresh(now)`. -/
def SyncWorker.tick (wcfg : SyncWorkerConfig) (cfg : OutboxConfig)
    (probe : Int → Bool) (transport : Option (Operation → SendResult))
    (now_ms : Int) (s : FileOutboxStore) : TickResult :=
  let sw := FileOutboxStore.requeue_inflight_older_than s now_ms
    wcfg.inflight_timeout_ms
  if probe now_ms = false then
    { processed := 0, store := sw.2, sends := [] }
  else
    SyncWorker.process_ready wcfg cfg transport now_ms sw.2

/-- Little-endian encoding of `n` into `width` bytes (each byte reduced
`% 256`, as any machine store of a wider value would be). -/
def le (width n : Nat) : List Nat :=
  match width with
  | 0 => []
  | w + 1 => n % 256 :: le w (n / 256)

/-- Little-endian decoding of a byte list. -/
def dec (bs : List Nat) : Nat :=
  bs.foldr (fun b acc => b + 256 * acc) 0

/-- Two's-complement encoding of a C++ `std::int64_t` as 8 LE bytes. -/
def encI64 (z : Int) : List Nat :=
  le 8 (z % 2 ^ 64).toNat

/-- Decoding of 8 LE bytes back into a signed 64-bit value. -/
def decI64 (bs : List Nat) : Int :=
  let n := dec bs
  if n < 2 ^ 63 then (n : Int) else (n : Int) - 2 ^ 64

/-- Model of `WalRecord` from WalRecord.hpp.  The C++ strings and the byte vector
are byte lists; `type` carries the `uint8_t` value underlying `RecordType`
(`PutOperation = 1, MarkDone = 2, MarkFailed = 3`). -/
structure WalRecord where
  id : List Nat := []
  type : Nat := 1
  ts_ms : Int := 0
  payload : List Nat := []
  error : List Nat := []
  next_retry_at_ms : Int := 0
deriving DecidableEq

def kMagic : Nat := 0x56495857

def kVersion : Nat := 1

/-- The byte sequence `WalWriter::append` emits for one record: the fixed
36-byte header (`magic u32, version u16, type u8, reserved u8, ts i64,
id_len u32, payload_len u32, error_len u32, next_retry i64`, all LE)
followed by the id, payload and error bytes.  The body writes use the
`u32`-cast lengths, hence the `% 2 ^ 32` takes. -/
def encodeRecord (r : WalRecord) : List Nat :=
  le 4 kMagic ++ le 2 kVersion ++ le 1 r.type ++ le 1 0 ++
  encI64 r.ts_ms ++ le 4 r.id.length ++ le 4 r.payload.length ++
  le 4 r.error.length ++ encI64 r.next_retry_at_ms ++
  r.id.take (r.id.length % 2 ^ 32) ++
  r.payload.take (r.payload.length % 2 ^ 32) ++
  r.error.take (r.error.length % 2 ^ 32)

/-- Model of `WalWriter::append` on a file opened in append mode: `tellp()` is the
current file length, which is returned as the record's offset. -/
def WalWriter.append (file : List Nat) (r : WalRecord) :
    Nat × List Nat :=
  (file.length, file ++ encodeRecord r)

/-- An `ifstream::read` of `n` bytes at `pos`: fails (failbit) when fewer
than `n` bytes remain. -/
def readBytes (f : List Nat) (pos n : Nat) : Option (List Nat) :=
  if pos + n ≤ f.length then some ((f.drop pos).take n) else none

/-- Model of `WalReader::next` at position `pos`: read the 36-byte header (short
read ⇒ end of stream), check magic and version, then read the
`id_len + payload_len + error_len` body bytes (short read ⇒ end of
stream).  On success returns the record and the position just past it. -/
def nextRecord (f : List Nat) (pos : Nat) : Option (WalRecord × Nat) :=
  match readBytes f pos 36 with
  | none => none
  | some hdr =>
    let magic := dec (hdr.take 4)
    let version := dec ((hdr.drop 4).take 2)
    let type := dec ((hdr.drop 6).take 1)
    let ts := decI64 ((hdr.drop 8).take 8)
    let id_len := dec ((hdr.drop 16).take 4)
    let payload_len := dec ((hdr.drop 20).take 4)
    let error_len := dec ((hdr.drop 24).take 4)
    let next_retry := decI64 ((hdr.drop 28).take 8)
    if magic = kMagic ∧ version = kVersion then
      match readBytes f (pos + 36) (id_len + payload_len + error_len) with
      | none => none
      | some body =>
        some ({ id := body.take id_len,
                type := type,
                ts_ms := ts,
                payload := (body.drop id_len).take payload_len,
                error := ((body.drop id_len).drop payload_len).take error_len,
                next_retry_at_ms := next_retry },
              pos + 36 + (id_len + payload_len + error_len))
    else none

/-- The loop of `Wal::replay`, collecting the records delivered to
`on_record` in order.  The fuel argument only bounds the iteration count;
every successful `nextRecord` consumes at least 36 bytes, so a fuel of
`f.length + 1` never cuts the loop short. -/
def replayGo (f : List Nat) : Nat → Nat → List WalRecord
  | 0, _ => []
  | fuel + 1, pos =>
    match nextRecord f pos with
    | none => []
    | some rp => rp.1 :: replayGo f fuel rp.2

/-- Model of `Wal::replay(from_offset, on_record)`, as the list of records
delivered. -/
def Wal.replay (f : List Nat) (from_offset : Nat) : List WalRecord :=
  replayGo f (f.length + 1) from_offset

/-- A record a C++ `WalRecord` value can actually denote: byte-valued
contents, `u32`-representable lengths (the hypothesis of claim C6),
a `uint8_t` type and `int64_t` timestamps. -/
def wfRecord (r : WalRecord) : Prop :=
  (∀ b ∈ r.id, b < 256) ∧ (∀ b ∈ r.payload, b < 256) ∧
  (∀ b ∈ r.error, b < 256) ∧
  r.id.length < 2 ^ 32 ∧ r.payload.length < 2 ^ 32 ∧
  r.error.length < 2 ^ 32 ∧ r.type < 256 ∧
  -(2 ^ 63) ≤ r.ts_ms ∧ r.ts_ms < 2 ^ 63 ∧
  -(2 ^ 63) ≤ r.next_retry_at_ms ∧ r.next_retry_at_ms < 2 ^ 63

instance (r : WalRecord) : Decidable (wfRecord r) := by
  unfold wfRecord
  infer_instance

/-! ## Association-list lemmas -/

theorem lookupKey_nil {α : Type} (k : String) :
    lookupKey ([] : List (String × α)) k = none := rfl

theorem lookupKey_cons {α : Type} (p : String × α) (l : List (String × α))
    (k : String) :
    lookupKey (p :: l) k = if p.1 = k then some p.2 else lookupKey l k := by
  by_cases h : p.1 = k <;> simp [lookupKey, List.find?_cons, h]

theorem setKey_cons_pos {α : Type} (p : String × α) (rest : List (String × α))
    (k : String) (v : α) (hp : p.1 = k) :
    setKey (p :: rest) k v =
      (k, v) :: rest.map (fun q => if q.1 = k then (k, v) else q) := by
  have ha : (p :: rest).any (fun q => q.1 = k) = true := by
    simp [List.any_cons, hp]
  rw [setKey, if_pos ha, List.map_cons, if_pos hp]

theorem setKey_cons_neg {α : Type} (p : String × α) (rest : List (String × α))
    (k : String) (v : α) (hp : p.1 ≠ k) :
    setKey (p :: rest) k v = p :: setKey rest k v := by
  by_cases ha : rest.any (fun q => q.1 = k)
  · have ha2 : (p :: rest).any (fun q => q.1 = k) = true := by
      simp [List.any_cons, ha]
    rw [setKey, if_pos ha2, setKey, if_pos ha, List.map_cons, if_neg hp]
  · have ha2 : ¬ (p :: rest).any (fun q => q.1 = k) = true := by
      simp only [List.any_cons, Bool.or_eq_true, not_or]
      exact ⟨by simpa using hp, by simpa using ha⟩
    rw [setKey, if_neg ha2, setKey, if_neg ha, List.cons_append]

theorem lookupKey_map_subst {α : Type} (rest : List (String × α))
    (k k2 : String) (v : α) (hne : k2 ≠ k) :
    lookupKey (rest.map (fun q => if q.1 = k then (k, v) else q)) k2 =
      lookupKey rest k2 := by
  induction rest with
  | nil => rfl
  | cons q tail ih =>
    by_cases hq : q.1 = k
    · have h1 : k ≠ k2 := fun h => hne h.symm
      have h2 : q.1 ≠ k2 := by rw [hq]; exact h1
      simp only [List.map_cons, if_pos hq, lookupKey_cons, if_neg h1,
        if_neg h2, ih]
    · have hid : (if q.1 = k then (k, v) else q) = q := if_neg hq
      rw [List.map_cons, hid, lookupKey_cons, lookupKey_cons]
      by_cases hq2 : q.1 = k2
      · rw [if_pos hq2, if_pos hq2]
      · rw [if_neg hq2, if_neg hq2, ih]

theorem lookupKey_setKey_self {α : Type} (l : List (String × α)) (k : String)
    (v : α) : lookupKey (setKey l k v) k = some v := by
  induction l with
  | nil => simp [setKey, lookupKey_cons]
  | cons p rest ih =>
    by_cases hp : p.1 = k
    · rw [setKey_cons_pos p rest k v hp, lookupKey_cons, if_pos rfl]
    · rw [setKey_cons_neg p rest k v hp, lookupKey_cons, if_neg hp]
      exact ih

theorem lookupKey_setKey_ne {α : Type} (l : List (String × α)) (k k2 : String)
    (v : α) (hne : k2 ≠ k) : lookupKey (setKey l k v) k2 = lookupKey l k2 := by
  induction l with
  | nil =>
    have : k ≠ k2 := fun h => hne h.symm
    simp [setKey, lookupKey_cons, lookupKey_nil, this]
  | cons p rest ih =>
    by_cases hp : p.1 = k
    · have h1 : k ≠ k2 := fun h => hne h.symm
      have h2 : p.1 ≠ k2 := by rw [hp]; exact h1
      rw [setKey_cons_pos p rest k v hp, lookupKey_cons, if_neg h1,
        lookupKey_cons, if_neg h2, lookupKey_map_subst rest k k2 v hne]
    · rw [setKey_cons_neg p rest k v hp, lookupKey_cons, lookupKey_cons]
      by_cases hp2 : p.1 = k2 <;> simp [hp2, ih]

theorem eraseKey_cons {α : Type} (p : String × α) (rest : List (String × α))
    (k : String) :
    eraseKey (p :: rest) k =
      if p.1 = k then eraseKey rest k else p :: eraseKey rest k := by
  by_cases hp : p.1 = k <;> simp [eraseKey, List.filter_cons, hp]

theorem lookupKey_eraseKey_self {α : Type} (l : List (String × α))
    (k : String) : lookupKey (eraseKey l k) k = none := by
  induction l with
  | nil => rfl
  | cons p rest ih =>
    rw [eraseKey_cons]
    by_cases hp : p.1 = k
    · rw [if_pos hp]; exact ih
    · rw [if_neg hp, lookupKey_cons, if_neg hp]; exact ih

theorem lookupKey_eraseKey_ne {α : Type} (l : List (String × α))
    (k k2 : String) (hne : k2 ≠ k) :
    lookupKey (eraseKey l k) k2 = lookupKey l k2 := by
  induction l with
  | nil => rfl
  | cons p rest ih =>
    rw [eraseKey_cons, lookupKey_cons]
    by_cases hp : p.1 = k
    · have h2 : p.1 ≠ k2 := by rw [hp]; exact fun h => hne h.symm
      rw [if_pos hp, if_neg h2]; exact ih
    · rw [if_neg hp, lookupKey_cons]
      by_cases hp2 : p.1 = k2
      · rw [if_pos hp2, if_pos hp2]
      · rw [if_neg hp2, if_neg hp2]; exact ih

/-! ## Claim C8 — retry policy -/

theorem mulLoop_eq_pow (b f : ℚ) (n : Nat) : mulLoop b f n = b * f ^ n := by
  induction n with
  | zero => simp [mulLoop]
  | succ n ih => rw [mulLoop, ih, pow_succ]; ring

/-- Claim C8: `can_retry(n)` holds exactly when `n < max_attempts`, and
`compute_delay_ms(n)` is `base_delay_ms * factor^n` truncated to an integer
and clamped by `std::clamp(·, base_delay_ms, max_delay_ms)`; the function is
deterministic (it is a pure function of the policy and the attempt). -/
theorem retry_policy_correct (p : RetryPolicy) (n : Nat) :
    (p.can_retry n = true ↔ n < p.max_attempts) ∧
    p.compute_delay_ms n =
      clampInt (ratTruncToInt ((p.base_delay_ms : ℚ) * p.factor ^ n))
        p.base_delay_ms p.max_delay_ms := by
  constructor
  · simp [RetryPolicy.can_retry]
  · rw [RetryPolicy.compute_delay_ms, mulLoop_eq_pow]

/-! ## Claim C4 — peek_ready filtering -/

theorem listGo_mem (opt : ListOptions) (h1 : opt.include_inflight = false)
    (h2 : opt.only_ready = true) :
    ∀ (l : List (String × Operation)) (count : Nat) (op : Operation),
      op ∈ listGo opt count l →
      (op.status = OperationStatus.Pending ∨
        op.status = OperationStatus.Failed) ∧
      op.next_retry_at_ms ≤ opt.now_ms := by
  intro l
  induction l with
  | nil =>
    intro count op h
    simp [listGo] at h
  | cons e rest ih =>
    intro count op h
    obtain ⟨eid, eop⟩ := e
    rw [listGo] at h
    split_ifs at h with hA hB hC hD hE
    · exact ih count op h
    · exact ih count op h
    · exact ih count op h
    · exact ih count op h
    · have hop : op = eop := by simpa using h
      subst hop
      have hin : op.status ≠ OperationStatus.InFlight := fun hh => hA ⟨h1, hh⟩
      have hready : op.next_retry_at_ms ≤ opt.now_ms := by
        by_contra hh
        exact hB ⟨h2, hh⟩
      refine ⟨?_, hready⟩
      cases hst : op.status
      · exact Or.inl rfl
      · exact absurd hst hin
      · exact absurd hst hC
      · exact Or.inr rfl
      · exact absurd hst hD
    · rcases List.mem_cons.mp h with hop | htail
      · subst hop
        have hin : op.status ≠ OperationStatus.InFlight := fun hh => hA ⟨h1, hh⟩
        have hready : op.next_retry_at_ms ≤ opt.now_ms := by
          by_contra hh
          exact hB ⟨h2, hh⟩
        refine ⟨?_, hready⟩
        cases hst : op.status
        · exact Or.inl rfl
        · exact absurd hst hin
        · exact absurd hst hC
        · exact Or.inr rfl
        · exact absurd hst hD
      · exact ih (count + 1) op htail

/-- Claim C4: every operation returned by `Outbox::peek_ready(now, limit)`
has status `Pending` or `Failed` and `next_retry_at_ms ≤ now`; `Done`,
`PermanentFailed` and `InFlight` operations are never returned. -/
theorem peek_ready_only_ready (s : FileOutboxStore) (now_ms : Int)
    (limit : Nat) (op : Operation)
    (h : op ∈ Outbox.peek_ready s now_ms limit) :
    (op.status = OperationStatus.Pending ∨
      op.status = OperationStatus.Failed) ∧
    op.next_retry_at_ms ≤ now_ms :=
  listGo_mem _ rfl rfl s.ops 0 op h

/-- Witness for C4 at a concrete store: a ready pending op is returned and
satisfies the property. -/
theorem peek_ready_only_ready_witness :
    ({ id := "a" } : Operation) ∈
      Outbox.peek_ready ⟨[("a", { id := "a" })], []⟩ 0 10 ∧
    ((({ id := "a" } : Operation).status = OperationStatus.Pending ∨
        ({ id := "a" } : Operation).status = OperationStatus.Failed) ∧
      ({ id := "a" } : Operation).next_retry_at_ms ≤ 0) :=
  ⟨by decide, peek_ready_only_ready ⟨[("a", { id := "a" })], []⟩ 0 10
    { id := "a" } (by decide)⟩

/-! ## Claim C3 — claim gives exclusive ownership -/

/-- Claim C3: `claim(id, owner, now)` returns false when the op is absent,
`InFlight`, or `Done`; when it returns true the op is now `InFlight` with
the owner recorded and `updated_at_ms = now`, and an immediately subsequent
claim (any owner, any time) returns false. -/
theorem claim_correct (s : FileOutboxStore) (id o : String) (now_ms : Int) :
    (lookupKey s.ops id = none →
      (FileOutboxStore.claim s id o now_ms).1 = false) ∧
    (∀ op, lookupKey s.ops id = some op →
      op.status = OperationStatus.InFlight ∨ op.status = OperationStatus.Done →
      (FileOutboxStore.claim s id o now_ms).1 = false) ∧
    (∀ op, lookupKey s.ops id = some op →
      (FileOutboxStore.claim s id o now_ms).1 = true →
      lookupKey (FileOutboxStore.claim s id o now_ms).2.ops id =
        some { op with status := OperationStatus.InFlight,
                       updated_at_ms := now_ms } ∧
      lookupKey (FileOutboxStore.claim s id o now_ms).2.owner id = some o ∧
      ∀ (o2 : String) (now2 : Int),
        (FileOutboxStore.claim (FileOutboxStore.claim s id o now_ms).2
          id o2 now2).1 = false) := by
  refine ⟨?_, ?_, ?_⟩
  · intro hnone
    simp only [FileOutboxStore.claim, hnone]
  · intro op hop hst
    simp only [FileOutboxStore.claim, hop]
    rcases hst with hst | hst
    · have hnd : ¬ op.status = OperationStatus.Done := by rw [hst]; intro h; cases h
      rw [if_neg hnd, if_pos hst]
    · rw [if_pos hst]
  · intro op hop htrue
    simp only [FileOutboxStore.claim, hop] at htrue ⊢
    by_cases hd : op.status = OperationStatus.Done
    · rw [if_pos hd] at htrue; cases htrue
    by_cases hi : op.status = OperationStatus.InFlight
    · rw [if_neg hd, if_pos hi] at htrue; cases htrue
    rw [if_neg hd, if_neg hi]
    refine ⟨lookupKey_setKey_self s.ops id _, lookupKey_setKey_self s.owner id o, ?_⟩
    intro o2 now2
    simp [FileOutboxStore.claim, lookupKey_setKey_self]

/-- Witness for C3 at a concrete store: a pending op is claimed; the second
claim fails. -/
theorem claim_correct_witness :
    lookupKey ([("a", ({ id := "a" } : Operation))]) "a" = some { id := "a" } ∧
    (FileOutboxStore.claim ⟨[("a", { id := "a" })], []⟩ "a" "w1" 3).1 = true ∧
    (FileOutboxStore.claim
      (FileOutboxStore.claim ⟨[("a", { id := "a" })], []⟩ "a" "w1" 3).2
      "a" "w2" 4).1 = false := by
  refine ⟨by decide, by decide, ?_⟩
  exact ((claim_correct ⟨[("a", { id := "a" })], []⟩ "a" "w1" 3).2.2
    { id := "a" } (by decide) (by decide)).2.2 "w2" 4

/-! ## Claim C10 — claim accepts PermanentFailed -/

/-- Claim C10: `FileOutboxStore::claim` rejects only `Done` and `InFlight`;
an existing op whose status is `PermanentFailed` (or `Pending` or `Failed`)
is claimed successfully and moved to `InFlight` with the owner recorded. -/
theorem claim_accepts_permanent_failed (s : FileOutboxStore) (id o : String)
    (now_ms : Int) (op : Operation)
    (hop : lookupKey s.ops id = some op)
    (hst : op.status = OperationStatus.PermanentFailed ∨
      op.status = OperationStatus.Pending ∨
      op.status = OperationStatus.Failed) :
    (FileOutboxStore.claim s id o now_ms).1 = true ∧
    lookupKey (FileOutboxStore.claim s id o now_ms).2.ops id =
      some { op with status := OperationStatus.InFlight,
                     updated_at_ms := now_ms } ∧
    lookupKey (FileOutboxStore.claim s id o now_ms).2.owner id = some o := by
  have hd : ¬ op.status = OperationStatus.Done := by
    rcases hst with h | h | h <;> rw [h] <;> intro hh <;> cases hh
  have hi : ¬ op.status = OperationStatus.InFlight := by
    rcases hst with h | h | h <;> rw [h] <;> intro hh <;> cases hh
  simp only [FileOutboxStore.claim, hop]
  rw [if_neg hd, if_neg hi]
  exact ⟨rfl, lookupKey_setKey_self s.ops id _, lookupKey_setKey_self s.owner id o⟩

/-- A concrete `PermanentFailed` operation, for the C10 witness. -/
def permOp : Operation :=
  { id := "p", status := OperationStatus.PermanentFailed }

/-- Witness for C10: a concrete `PermanentFailed` op re-enters processing
via `claim`. -/
theorem claim_accepts_permanent_failed_witness :
    lookupKey [("p", permOp)] "p" = some permOp ∧
    (FileOutboxStore.claim ⟨[("p", permOp)], []⟩ "p" "w" 9).1 = true :=
  ⟨by decide,
    (claim_accepts_permanent_failed ⟨[("p", permOp)], []⟩
      "p" "w" 9 permOp (by decide) (Or.inl rfl)).1⟩

/-! ## Requeue-sweep characterization -/

theorem requeueGo_ops (now_ms timeout_ms : Int) :
    ∀ (l : List (String × Operation)) (ow : List (String × String)) (c : Nat),
      (requeueGo now_ms timeout_ms l ow c).1 =
        l.map (fun e => if requeueHits now_ms timeout_ms e.2
          then (e.1, requeueXform now_ms e.2) else e) := by
  intro l
  induction l with
  | nil => intro ow c; rfl
  | cons e rest ih =>
    intro ow c
    obtain ⟨id, op⟩ := e
    rw [requeueGo]
    by_cases h : requeueHits now_ms timeout_ms op
    · rw [if_pos h]
      simp only [List.map_cons, if_pos h]
      rw [ih]
    · rw [if_neg h]
      simp only [List.map_cons, if_neg h]
      rw [ih]

theorem requeueGo_count (now_ms timeout_ms : Int) :
    ∀ (l : List (String × Operation)) (ow : List (String × String)) (c : Nat),
      (requeueGo now_ms timeout_ms l ow c).2.2 =
        c + l.countP (fun e => decide (requeueHits now_ms timeout_ms e.2)) := by
  intro l
  induction l with
  | nil => intro ow c; simp [requeueGo]
  | cons e rest ih =>
    intro ow c
    obtain ⟨id, op⟩ := e
    rw [requeueGo]
    by_cases h : requeueHits now_ms timeout_ms op
    · rw [if_pos h, ih]
      simp [List.countP_cons, h]
      try omega
    · rw [if_neg h, ih]
      simp [List.countP_cons, h]
      try omega

theorem requeueGo_owner_none (now_ms timeout_ms : Int) :
    ∀ (l : List (String × Operation)) (ow : List (String × String)) (c : Nat)
      (wid : String), lookupKey ow wid = none →
      lookupKey (requeueGo now_ms timeout_ms l ow c).2.1 wid = none := by
  intro l
  induction l with
  | nil => intro ow c wid h; exact h
  | cons e rest ih =>
    intro ow c wid h
    obtain ⟨id, op⟩ := e
    rw [requeueGo]
    by_cases hh : requeueHits now_ms timeout_ms op
    · rw [if_pos hh]
      apply ih
      by_cases hw : wid = id
      · subst hw; exact lookupKey_eraseKey_self ow wid
      · rw [lookupKey_eraseKey_ne ow id wid hw]; exact h
    · rw [if_neg hh]
      exact ih ow c wid h

theorem requeueGo_owner_hit (now_ms timeout_ms : Int) :
    ∀ (l : List (String × Operation)) (ow : List (String × String)) (c : Nat)
      (wid : String) (op : Operation),
      (wid, op) ∈ l → requeueHits now_ms timeout_ms op →
      lookupKey (requeueGo now_ms timeout_ms l ow c).2.1 wid = none := by
  intro l
  induction l with
  | nil => intro ow c wid op hm; cases hm
  | cons e rest ih =>
    intro ow c wid op hm hhit
    obtain ⟨id, eop⟩ := e
    rcases List.mem_cons.mp hm with hhead | htail
    · obtain ⟨h1, h2⟩ := Prod.mk.injEq .. ▸ hhead
      subst h1
      subst h2
      rw [requeueGo, if_pos hhit]
      exact requeueGo_owner_none now_ms timeout_ms rest _ _ wid
        (lookupKey_eraseKey_self ow wid)
    · rw [requeueGo]
      by_cases hh : requeueHits now_ms timeout_ms eop
      · rw [if_pos hh]
        exact ih _ _ wid op htail hhit
      · rw [if_neg hh]
        exact ih _ _ wid op htail hhit

theorem requeueGo_owner_miss (now_ms timeout_ms : Int) :
    ∀ (l : List (String × Operation)) (ow : List (String × String)) (c : Nat)
      (wid : String),
      (∀ op, (wid, op) ∈ l → ¬ requeueHits now_ms timeout_ms op) →
      lookupKey (requeueGo now_ms timeout_ms l ow c).2.1 wid =
        lookupKey ow wid := by
  intro l
  induction l with
  | nil => intro ow c wid _; rfl
  | cons e rest ih =>
    intro ow c wid hmiss
    obtain ⟨id, eop⟩ := e
    rw [requeueGo]
    by_cases hh : requeueHits now_ms timeout_ms eop
    · rw [if_pos hh]
      have hne : wid ≠ id := by
        intro hw
        subst hw
        exact hmiss eop (List.mem_cons_self _ _) hh
      rw [ih _ _ wid (fun op hm => hmiss op (List.mem_cons_of_mem _ hm)),
        lookupKey_eraseKey_ne ow id wid hne]
    · rw [if_neg hh]
      exact ih _ _ wid (fun op hm => hmiss op (List.mem_cons_of_mem _ hm))

theorem lookupKey_map_entry {α : Type} (l : List (String × α)) (g : α → α)
    (k : String) :
    lookupKey (l.map (fun e => (e.1, g e.2))) k = (lookupKey l k).map g := by
  induction l with
  | nil => rfl
  | cons e rest ih =>
    by_cases he : e.1 = k <;> simp [lookupKey_cons, he, ih]

theorem requeue_ops_lookup (s : FileOutboxStore) (now_ms timeout_ms : Int)
    (id : String) :
    lookupKey (FileOutboxStore.requeue_inflight_older_than s now_ms
      timeout_ms).2.ops id =
      (lookupKey s.ops id).map (fun op =>
        if requeueHits now_ms timeout_ms op then requeueXform now_ms op
        else op) := by
  show lookupKey (requeueGo now_ms timeout_ms s.ops s.owner 0).1 id = _
  rw [requeueGo_ops]
  rw [show s.ops.map (fun e => if requeueHits now_ms timeout_ms e.2
      then (e.1, requeueXform now_ms e.2) else e) =
    s.ops.map (fun e => (e.1, if requeueHits now_ms timeout_ms e.2
      then requeueXform now_ms e.2 else e.2)) from
    List.map_congr_left (fun e _ => by
      by_cases h : requeueHits now_ms timeout_ms e.2 <;> simp [h])]
  exact lookupKey_map_entry s.ops (fun op =>
    if requeueHits now_ms timeout_ms op then requeueXform now_ms op else op) id

theorem lookup_mem {α : Type} (l : List (String × α)) (k : String) (v : α)
    (h : lookupKey l k = some v) : (k, v) ∈ l := by
  induction l with
  | nil => cases h
  | cons p rest ih =>
    rw [lookupKey_cons] at h
    by_cases hp : p.1 = k
    · rw [if_pos hp] at h
      have h2 : p.2 = v := Option.some.inj h
      have : (k, v) = p := by
        obtain ⟨a, b⟩ := p
        simp only at hp h2
        rw [hp, h2]
      rw [this]
      exact List.mem_cons_self _ _
    · rw [if_neg hp] at h
      exact List.mem_cons_of_mem _ (ih h)

theorem lookup_nodup_unique {α : Type} (l : List (String × α))
    (hnd : (l.map Prod.fst).Nodup) (k : String) (v v2 : α)
    (hl : lookupKey l k = some v) (hm : (k, v2) ∈ l) : v2 = v := by
  induction l with
  | nil => cases hm
  | cons p rest ih =>
    rw [List.map_cons, List.nodup_cons] at hnd
    rcases List.mem_cons.mp hm with hhead | htail
    · subst hhead
      rw [lookupKey_cons, if_pos rfl] at hl
      exact Option.some.inj hl
    · by_cases hp : p.1 = k
      · exfalso
        apply hnd.1
        rw [hp]
        exact List.mem_map.mpr ⟨(k, v2), htail, rfl⟩
      · rw [lookupKey_cons, if_neg hp] at hl
        exact ih hnd.2 hl htail

/-! ## Claim C5 — the inflight sweep -/

/-- Claim C5: `requeue_inflight_older_than(now, timeout)` transitions
exactly the `InFlight` operations with `now - updated_at_ms ≥ timeout` to
`Failed` — bumping `attempt`, setting `last_error` to
"requeued after inflight timeout", `next_retry_at_ms = now`,
`updated_at_ms = now`, and clearing the owner entry — leaves every other
operation (and its owner entry) unchanged, and returns the number of
operations requeued. -/
theorem requeue_inflight_correct (s : FileOutboxStore)
    (now_ms timeout_ms : Int) (hnd : (s.ops.map Prod.fst).Nodup) :
    (FileOutboxStore.requeue_inflight_older_than s now_ms timeout_ms).1 =
      s.ops.countP (fun e => decide (requeueHits now_ms timeout_ms e.2)) ∧
    ∀ id op, lookupKey s.ops id = some op →
      (requeueHits now_ms timeout_ms op →
        lookupKey (FileOutboxStore.requeue_inflight_older_than s now_ms
            timeout_ms).2.ops id = some (requeueXform now_ms op) ∧
        lookupKey (FileOutboxStore.requeue_inflight_older_than s now_ms
            timeout_ms).2.owner id = none) ∧
      (¬ requeueHits now_ms timeout_ms op →
        lookupKey (FileOutboxStore.requeue_inflight_older_than s now_ms
            timeout_ms).2.ops id = some op ∧
        lookupKey (FileOutboxStore.requeue_inflight_older_than s now_ms
            timeout_ms).2.owner id = lookupKey s.owner id) := by
  refine ⟨?_, ?_⟩
  · show (requeueGo now_ms timeout_ms s.ops s.owner 0).2.2 = _
    rw [requeueGo_count]
    omega
  · intro id op hop
    constructor
    · intro hhit
      constructor
      · rw [requeue_ops_lookup, hop]
        simp [hhit]
      · show lookupKey (requeueGo now_ms timeout_ms s.ops s.owner 0).2.1 id = none
        exact requeueGo_owner_hit now_ms timeout_ms s.ops s.owner 0 id op
          (lookup_mem s.ops id op hop) hhit
    · intro hmiss
      constructor
      · rw [requeue_ops_lookup, hop]
        simp [hmiss]
      · show lookupKey (requeueGo now_ms timeout_ms s.ops s.owner 0).2.1 id = _
        apply requeueGo_owner_miss
        intro op2 hm2
        have : op2 = op := lookup_nodup_unique s.ops hnd id op op2 hop hm2
        rw [this]
        exact hmiss

/-- A concrete stuck `InFlight` operation, for the C5 witness. -/
def inflOp : Operation :=
  { id := "i", status := OperationStatus.InFlight, updated_at_ms := 0 }

/-- Witness for C5: on a store with one stuck in-flight op, the sweep count
matches the predicate count. -/
theorem requeue_inflight_correct_witness :
    ((([("i", inflOp)] : List (String × Operation)).map Prod.fst).Nodup) ∧
    (FileOutboxStore.requeue_inflight_older_than
      ⟨[("i", inflOp)], [("i", "w")]⟩ 100 50).1 =
      ([("i", inflOp)] : List (String × Operation)).countP
        (fun e => decide (requeueHits 100 50 e.2)) :=
  ⟨by decide,
    (requeue_inflight_correct ⟨[("i", inflOp)], [("i", "w")]⟩ 100 50
      (by decide)).1⟩

/-! ## Claim C1 — terminality of Done / PermanentFailed -/

/-- A concrete `Done` operation. -/
def doneOp : Operation := { id := "d", status := OperationStatus.Done }

/-- Counterexample to claim C1 as stated: `mark_failed` moves a `Done`
operation to `Failed`, and `claim` moves a `PermanentFailed` operation to
`InFlight`, so `Done` and `PermanentFailed` are not terminal under every
store call. -/
theorem terminal_statuses_counterexample :
    Option.map Operation.status
      (lookupKey (FileOutboxStore.mark_failed ⟨[("d", doneOp)], []⟩
        "d" "boom" 1 2).2.ops "d") = some OperationStatus.Failed ∧
    (FileOutboxStore.claim ⟨[("p", permOp)], []⟩ "p" "w" 3).1 = true := by
  decide

/-- Claim C1 (amended): `Done` / `PermanentFailed` are preserved by the
calls that do not overwrite the status — a `Done` op is refused by `claim`
(store unchanged), kept at `Done` by `mark_done` and untouched by
`requeue_inflight_older_than`; a `PermanentFailed` op keeps its status
under `mark_permanent_failed` and `requeue_inflight_older_than`.  The
remaining calls (`mark_failed` and `mark_permanent_failed` on a `Done` op;
`claim`, `mark_done`, `mark_failed` on a `PermanentFailed` op) overwrite
the status unconditionally, as the counterexample shows. -/
theorem terminal_statuses_amended (s : FileOutboxStore) (id o e : String)
    (now_ms now2_ms timeout_ms : Int) (op : Operation)
    (hop : lookupKey s.ops id = some op) :
    (op.status = OperationStatus.Done →
      FileOutboxStore.claim s id o now_ms = (false, s) ∧
      Option.map Operation.status
        (lookupKey (FileOutboxStore.mark_done s id now_ms).2.ops id) =
        some OperationStatus.Done ∧
      Option.map Operation.status
        (lookupKey (FileOutboxStore.requeue_inflight_older_than s now2_ms
          timeout_ms).2.ops id) = some OperationStatus.Done) ∧
    (op.status = OperationStatus.PermanentFailed →
      Option.map Operation.status
        (lookupKey (FileOutboxStore.mark_permanent_failed s id e
          now_ms).2.ops id) = some OperationStatus.PermanentFailed ∧
      Option.map Operation.status
        (lookupKey (FileOutboxStore.requeue_inflight_older_than s now2_ms
          timeout_ms).2.ops id) = some OperationStatus.PermanentFailed) := by
  constructor
  · intro hdone
    refine ⟨?_, ?_, ?_⟩
    · simp only [FileOutboxStore.claim, hop]
      rw [if_pos hdone]
    · simp only [FileOutboxStore.mark_done, hop]
      rw [lookupKey_setKey_self]
      rfl
    · rw [requeue_ops_lookup, hop]
      have hmiss : ¬ requeueHits now2_ms timeout_ms op := by
        intro hh
        obtain ⟨h1, h2⟩ := hh
        rw [hdone] at h1
        cases h1
      simp [hmiss, hdone]
  · intro hperm
    refine ⟨?_, ?_⟩
    · simp only [FileOutboxStore.mark_permanent_failed, hop]
      rw [lookupKey_setKey_self]
      rfl
    · rw [requeue_ops_lookup, hop]
      have hmiss : ¬ requeueHits now2_ms timeout_ms op := by
        intro hh
        obtain ⟨h1, h2⟩ := hh
        rw [hperm] at h1
        cases h1
      simp [hmiss, hperm]

/-- Witness for the amended C1: the concrete `Done` op is refused by
`claim` and the store is unchanged. -/
theorem terminal_statuses_amended_witness :
    lookupKey [("d", doneOp)] "d" = some doneOp ∧
    FileOutboxStore.claim ⟨[("d", doneOp)], []⟩ "d" "w" 1 =
      (false, ⟨[("d", doneOp)], []⟩) :=
  ⟨by decide,
    ((terminal_statuses_amended ⟨[("d", doneOp)], []⟩ "d" "w" "e" 1 2 3
      doneOp (by decide)).1 rfl).1⟩

/-! ## Claim C2 — attempt increment on Outbox::fail -/

/-- A concrete `Pending` operation with `attempt = 0`. -/
def pendingOp : Operation := { id := "a" }

/-- Claim C2 is contradicted by the code: `Outbox::fail` increments
`attempt` only on a local copy (used for the retry decision) and the store
mutation (`mark_failed`) never writes it back — at a store holding an op
with `attempt = 0`, `fail(id, err, 5, retryable = true)` returns true yet
the stored attempt stays 0 instead of becoming 1. -/
theorem fail_does_not_persist_attempt :
    (Outbox.fail {} ⟨[("a", pendingOp)], []⟩ "a" "err" 5 true).1 = true ∧
    Option.map Operation.attempt
      (lookupKey (Outbox.fail {} ⟨[("a", pendingOp)], []⟩
        "a" "err" 5 true).2.ops "a") = some 0 := by
  decide

/-! ## Claim C9 — offline tick is a no-send no-op for Pending ops -/

/-- Claim C9: if the reachability probe reports offline at `now`, then
`tick(now)` returns 0, `transport.send` is never invoked, and every
`Pending` operation is left completely unchanged (in particular its status
stays `Pending`). -/
theorem tick_offline (wcfg : SyncWorkerConfig) (cfg : OutboxConfig)
    (probe : Int → Bool) (transport : Option (Operation → SendResult))
    (now_ms : Int) (s : FileOutboxStore) (hoff : probe now_ms = false) :
    (SyncWorker.tick wcfg cfg probe transport now_ms s).processed = 0 ∧
    (SyncWorker.tick wcfg cfg probe transport now_ms s).sends = [] ∧
    ∀ id op, lookupKey s.ops id = some op →
      op.status = OperationStatus.Pending →
      lookupKey (SyncWorker.tick wcfg cfg probe transport now_ms
        s).store.ops id = some op := by
  have htick : SyncWorker.tick wcfg cfg probe transport now_ms s =
      { processed := 0,
        store := (FileOutboxStore.requeue_inflight_older_than s now_ms
          wcfg.inflight_timeout_ms).2,
        sends := [] } := by
    rw [SyncWorker.tick]
    simp [hoff]
  refine ⟨by rw [htick], by rw [htick], ?_⟩
  intro id op hop hpend
  rw [htick]
  show lookupKey (FileOutboxStore.requeue_inflight_older_than s now_ms
    wcfg.inflight_timeout_ms).2.ops id = some op
  rw [requeue_ops_lookup, hop]
  have hmiss : ¬ requeueHits now_ms wcfg.inflight_timeout_ms op := by
    intro hh
    obtain ⟨h1, h2⟩ := hh
    rw [hpend] at h1
    cases h1
  simp [hmiss]

/-- An always-offline probe, for the C9 witness. -/
def probeOff : Int → Bool := fun _ => false

/-- An always-succeeding transport, for the C9 witness. -/
def transportOk : Option (Operation → SendResult) :=
  some (fun _ => { ok := true })

/-- Witness for C9: with an offline probe, a concrete tick over a pending
op returns 0. -/
theorem tick_offline_witness :
    probeOff 0 = false ∧
    (SyncWorker.tick {} {} probeOff transportOk 0
      ⟨[("a", pendingOp)], []⟩).processed = 0 :=
  ⟨rfl, (tick_offline {} {} probeOff transportOk 0
    ⟨[("a", pendingOp)], []⟩ rfl).1⟩

/-! ## WAL byte-level lemmas -/

theorem dec_cons (b : Nat) (bs : List Nat) : dec (b :: bs) = b + 256 * dec bs :=
  rfl

theorem le_length (w n : Nat) : (le w n).length = w := by
  induction w generalizing n with
  | zero => rfl
  | succ w ih => simp [le, ih]

theorem encI64_length (z : Int) : (encI64 z).length = 8 := le_length 8 _

theorem dec_le (w n : Nat) : dec (le w n) = n % 256 ^ w := by
  induction w generalizing n with
  | zero => simp [le, dec]; omega
  | succ w ih =>
    rw [le, dec_cons, ih, pow_succ, Nat.mul_comm (256 ^ w) 256, Nat.mod_mul]

theorem dec_le_of_lt (w n : Nat) (h : n < 256 ^ w) : dec (le w n) = n := by
  rw [dec_le, Nat.mod_eq_of_lt h]

theorem decI64_encI64 (z : Int) (h1 : -(2 ^ 63) ≤ z) (h2 : z < 2 ^ 63) :
    decI64 (encI64 z) = z := by
  have hpow : (256 : Nat) ^ 8 = 2 ^ 64 := by norm_num
  have hge : 0 ≤ z % (2 : Int) ^ 64 := Int.emod_nonneg z (by norm_num)
  have hlt : z % (2 : Int) ^ 64 < 2 ^ 64 := Int.emod_lt_of_pos z (by norm_num)
  have hn : (z % (2 : Int) ^ 64).toNat < 256 ^ 8 := by
    rw [hpow]
    omega
  rw [encI64, decI64, dec_le_of_lt 8 _ hn]
  have hz64 : ((2 : Int) ^ 64) = 18446744073709551616 := by norm_num
  have hz63i : ((2 : Int) ^ 63) = 9223372036854775808 := by norm_num
  have hz63n : ((2 : Nat) ^ 63) = 9223372036854775808 := by norm_num
  rw [hz64] at hge hlt ⊢
  rw [hz63i] at h1 h2
  rw [hz63n]
  split <;> omega

theorem take_append_len {α : Type} (a b : List α) (n : Nat)
    (h : a.length = n) : (a ++ b).take n = a := by
  subst h
  exact List.take_left a b

theorem drop_append_len {α : Type} (a b : List α) (n : Nat)
    (h : a.length = n) : (a ++ b).drop n = b := by
  subst h
  exact List.drop_left a b

/-- The fixed 36-byte header emitted by `WalWriter::append`. -/
def hdrBytes (r : WalRecord) : List Nat :=
  le 4 kMagic ++ le 2 kVersion ++ le 1 r.type ++ le 1 0 ++
  encI64 r.ts_ms ++ le 4 r.id.length ++ le 4 r.payload.length ++
  le 4 r.error.length ++ encI64 r.next_retry_at_ms

/-- The body bytes emitted by `WalWriter::append`. -/
def bodyBytes (r : WalRecord) : List Nat :=
  r.id.take (r.id.length % 2 ^ 32) ++
  r.payload.take (r.payload.length % 2 ^ 32) ++
  r.error.take (r.error.length % 2 ^ 32)

theorem encodeRecord_split (r : WalRecord) :
    encodeRecord r = hdrBytes r ++ bodyBytes r := by
  simp [encodeRecord, hdrBytes, bodyBytes, List.append_assoc]

theorem hdrBytes_length (r : WalRecord) : (hdrBytes r).length = 36 := by
  simp [hdrBytes, le_length, encI64_length]

/-- Parsing an encoded record embedded at position `pre.length` of a file
recovers the record and advances to the position just past it. -/
theorem nextRecord_encode (pre rest : List Nat) (r : WalRecord)
    (hwf : wfRecord r) :
    nextRecord (pre ++ (encodeRecord r ++ rest)) pre.length =
      some (r, pre.length + (encodeRecord r).length) := by
  obtain ⟨hidb, hplb, herb, hil, hpl, hel, hty, hts1, hts2, hnr1, hnr2⟩ := hwf
  have h32 : (256 : Nat) ^ 4 = 2 ^ 32 := by norm_num
  have hidt : r.id.take (r.id.length % 2 ^ 32) = r.id := by
    rw [Nat.mod_eq_of_lt hil, List.take_length]
  have hplt : r.payload.take (r.payload.length % 2 ^ 32) = r.payload := by
    rw [Nat.mod_eq_of_lt hpl, List.take_length]
  have hert : r.error.take (r.error.length % 2 ^ 32) = r.error := by
    rw [Nat.mod_eq_of_lt hel, List.take_length]
  have hbody : bodyBytes r = r.id ++ (r.payload ++ r.error) := by
    rw [bodyBytes, hidt, hplt, hert, List.append_assoc]
  have hbodylen : (bodyBytes r).length =
      r.id.length + r.payload.length + r.error.length := by
    rw [hbody]
    simp [List.length_append]
    omega
  have henclen : (encodeRecord r).length =
      36 + (r.id.length + r.payload.length + r.error.length) := by
    rw [encodeRecord_split, List.length_append, hdrBytes_length, hbodylen]
  have hfile : pre ++ (encodeRecord r ++ rest) =
      pre ++ (hdrBytes r ++ (bodyBytes r ++ rest)) := by
    rw [encodeRecord_split, List.append_assoc]
  have hflen : (pre ++ (hdrBytes r ++ (bodyBytes r ++ rest))).length =
      pre.length + (36 + ((bodyBytes r).length + rest.length)) := by
    simp [List.length_append, hdrBytes_length]
  -- header field extraction
  have e4 : (hdrBytes r).drop 4 =
      le 2 kVersion ++ (le 1 r.type ++ (le 1 0 ++ (encI64 r.ts_ms ++
      (le 4 r.id.length ++ (le 4 r.payload.length ++
      (le 4 r.error.length ++ encI64 r.next_retry_at_ms)))))) :=
    drop_append_len _ _ 4 (le_length 4 kMagic)
  have e6 : (hdrBytes r).drop 6 =
      le 1 r.type ++ (le 1 0 ++ (encI64 r.ts_ms ++
      (le 4 r.id.length ++ (le 4 r.payload.length ++
      (le 4 r.error.length ++ encI64 r.next_retry_at_ms))))) := by
    rw [show (6 : Nat) = 4 + 2 from rfl, ← List.drop_drop, e4]
    exact drop_append_len _ _ 2 (le_length 2 kVersion)
  have e7 : (hdrBytes r).drop 7 =
      le 1 0 ++ (encI64 r.ts_ms ++
      (le 4 r.id.length ++ (le 4 r.payload.length ++
      (le 4 r.error.length ++ encI64 r.next_retry_at_ms)))) := by
    rw [show (7 : Nat) = 6 + 1 from rfl, ← List.drop_drop, e6]
    exact drop_append_len _ _ 1 (le_length 1 r.type)
  have e8 : (hdrBytes r).drop 8 =
      encI64 r.ts_ms ++ (le 4 r.id.length ++ (le 4 r.payload.length ++
      (le 4 r.error.length ++ encI64 r.next_retry_at_ms))) := by
    rw [show (8 : Nat) = 7 + 1 from rfl, ← List.drop_drop, e7]
    exact drop_append_len _ _ 1 (le_length 1 0)
  have e16 : (hdrBytes r).drop 16 =
      le 4 r.id.length ++ (le 4 r.payload.length ++
      (le 4 r.error.length ++ encI64 r.next_retry_at_ms)) := by
    rw [show (16 : Nat) = 8 + 8 from rfl, ← List.drop_drop, e8]
    exact drop_append_len _ _ 8 (encI64_length r.ts_ms)
  have e20 : (hdrBytes r).drop 20 =
      le 4 r.payload.length ++
      (le 4 r.error.length ++ encI64 r.next_retry_at_ms) := by
    rw [show (20 : Nat) = 16 + 4 from rfl, ← List.drop_drop, e16]
    exact drop_append_len _ _ 4 (le_length 4 r.id.length)
  have e24 : (hdrBytes r).drop 24 =
      le 4 r.error.length ++ encI64 r.next_retry_at_ms := by
    rw [show (24 : Nat) = 20 + 4 from rfl, ← List.drop_drop, e20]
    exact drop_append_len _ _ 4 (le_length 4 r.payload.length)
  have e28 : (hdrBytes r).drop 28 = encI64 r.next_retry_at_ms := by
    rw [show (28 : Nat) = 24 + 4 from rfl, ← List.drop_drop, e24]
    exact drop_append_len _ _ 4 (le_length 4 r.error.length)
  have f0 : (hdrBytes r).take 4 = le 4 kMagic :=
    take_append_len _ _ 4 (le_length 4 kMagic)
  have f4 : ((hdrBytes r).drop 4).take 2 = le 2 kVersion := by
    rw [e4]
    exact take_append_len _ _ 2 (le_length 2 kVersion)
  have f6 : ((hdrBytes r).drop 6).take 1 = le 1 r.type := by
    rw [e6]
    exact take_append_len _ _ 1 (le_length 1 r.type)
  have f8 : ((hdrBytes r).drop 8).take 8 = encI64 r.ts_ms := by
    rw [e8]
    exact take_append_len _ _ 8 (encI64_length r.ts_ms)
  have f16 : ((hdrBytes r).drop 16).take 4 = le 4 r.id.length := by
    rw [e16]
    exact take_append_len _ _ 4 (le_length 4 r.id.length)
  have f20 : ((hdrBytes r).drop 20).take 4 = le 4 r.payload.length := by
    rw [e20]
    exact take_append_len _ _ 4 (le_length 4 r.payload.length)
  have f24 : ((hdrBytes r).drop 24).take 4 = le 4 r.error.length := by
    rw [e24]
    exact take_append_len _ _ 4 (le_length 4 r.error.length)
  have f28 : ((hdrBytes r).drop 28).take 8 = encI64 r.next_retry_at_ms := by
    rw [e28, show (8 : Nat) = (encI64 r.next_retry_at_ms).length from
      (encI64_length _).symm, List.take_length]
  -- decoded field values
  have dm : dec (le 4 kMagic) = kMagic :=
    dec_le_of_lt 4 kMagic (by norm_num [kMagic])
  have dv : dec (le 2 kVersion) = kVersion :=
    dec_le_of_lt 2 kVersion (by norm_num [kVersion])
  have dty : dec (le 1 r.type) = r.type :=
    dec_le_of_lt 1 r.type (by simpa using hty)
  have dts : decI64 (encI64 r.ts_ms) = r.ts_ms := decI64_encI64 _ hts1 hts2
  have dil : dec (le 4 r.id.length) = r.id.length :=
    dec_le_of_lt 4 _ (by rw [h32]; exact hil)
  have dpl : dec (le 4 r.payload.length) = r.payload.length :=
    dec_le_of_lt 4 _ (by rw [h32]; exact hpl)
  have del : dec (le 4 r.error.length) = r.error.length :=
    dec_le_of_lt 4 _ (by rw [h32]; exact hel)
  have dnr : decI64 (encI64 r.next_retry_at_ms) = r.next_retry_at_ms :=
    decI64_encI64 _ hnr1 hnr2
  -- the two reads
  have hread1 : readBytes (pre ++ (hdrBytes r ++ (bodyBytes r ++ rest)))
      pre.length 36 = some (hdrBytes r) := by
    rw [readBytes, if_pos (by rw [hflen]; omega)]
    rw [drop_append_len pre _ _ rfl]
    rw [take_append_len _ _ 36 (hdrBytes_length r)]
  have hread2 : readBytes (pre ++ (hdrBytes r ++ (bodyBytes r ++ rest)))
      (pre.length + 36) (r.id.length + r.payload.length + r.error.length) =
      some (r.id ++ (r.payload ++ r.error)) := by
    rw [readBytes, if_pos (by rw [hflen, hbodylen]; omega)]
    rw [← List.append_assoc]
    rw [drop_append_len (pre ++ hdrBytes r) _ (pre.length + 36)
      (by simp [List.length_append, hdrBytes_length])]
    rw [hbody]
    have : ((r.id ++ (r.payload ++ r.error)).length) =
        r.id.length + r.payload.length + r.error.length := by
      simp [List.length_append]
      omega
    rw [take_append_len _ _ _ this]
  -- body field extraction
  have b1 : (r.id ++ (r.payload ++ r.error)).take r.id.length = r.id :=
    take_append_len _ _ _ rfl
  have b2 : (r.id ++ (r.payload ++ r.error)).drop r.id.length =
      r.payload ++ r.error :=
    drop_append_len _ _ _ rfl
  have b3 : (r.payload ++ r.error).take r.payload.length = r.payload :=
    take_append_len _ _ _ rfl
  have b4 : (r.payload ++ r.error).drop r.payload.length = r.error :=
    drop_append_len _ _ _ rfl
  have b5 : r.error.take r.error.length = r.error := List.take_length _
  rw [hfile]
  simp only [nextRecord, hread1]
  rw [f0, dm, f4, dv, f6, dty, f8, dts, f16, dil, f20, dpl, f24, del,
    f28, dnr]
  rw [if_pos ⟨rfl, rfl⟩]
  simp only [hread2]
  rw [b1, b2, b3, b4, b5]
  refine congrArg some (Prod.ext ?_ ?_)
  · rfl
  · show pre.length + 36 + (r.id.length + r.payload.length + r.error.length) =
      pre.length + (encodeRecord r).length
    rw [henclen]
    omega

/-! ## Claim C6 — WAL write/read round-trip -/

/-- Claim C6: if `WalWriter::append(R)` returns byte offset `O`, a reader
seeked to `O` parses back a record equal to `R` in every serialized field
(and stops just past the record). -/
theorem wal_roundtrip (file : List Nat) (r : WalRecord) (hwf : wfRecord r) :
    nextRecord (WalWriter.append file r).2 (WalWriter.append file r).1 =
      some (r, file.length + (encodeRecord r).length) := by
  show nextRecord (file ++ encodeRecord r) file.length = _
  have h := nextRecord_encode file [] r hwf
  rw [List.append_nil] at h
  exact h

/-- A concrete `PutOperation` record. -/
def wr1 : WalRecord :=
  { id := [97], type := 1, ts_ms := 5, payload := [1, 2], error := [],
    next_retry_at_ms := 0 }

/-- A concrete `MarkDone` record. -/
def wr2 : WalRecord :=
  { id := [98], type := 2, ts_ms := 6, payload := [], error := [],
    next_retry_at_ms := 0 }

/-- A concrete `MarkFailed` record. -/
def wr3 : WalRecord :=
  { id := [99], type := 3, ts_ms := 7, payload := [], error := [120],
    next_retry_at_ms := 1 }

/-- Witness for C6: the round-trip at a concrete file and record. -/
theorem wal_roundtrip_witness :
    wfRecord wr1 ∧
    nextRecord (WalWriter.append [7, 7] wr1).2 (WalWriter.append [7, 7] wr1).1 =
      some (wr1, ([7, 7] : List Nat).length + (encodeRecord wr1).length) :=
  ⟨by decide, wal_roundtrip [7, 7] wr1 (by decide)⟩

/-! ## Claim C7 — truncated-tail-tolerant replay -/

theorem readBytes_shift (pre t : List Nat) (k n : Nat) :
    readBytes (pre ++ t) (pre.length + k) n = readBytes t k n := by
  have hdrop : (pre ++ t).drop (pre.length + k) = t.drop k := by
    rw [← List.drop_drop, List.drop_left]
  by_cases h : k + n ≤ t.length
  · rw [readBytes, readBytes,
      if_pos (by simp only [List.length_append]; omega), if_pos h, hdrop]
  · rw [readBytes, readBytes,
      if_neg (by simp only [List.length_append]; omega), if_neg h]

theorem nextRecord_shift_none (pre t : List Nat)
    (h : nextRecord t 0 = none) : nextRecord (pre ++ t) pre.length = none := by
  have r1 : readBytes (pre ++ t) pre.length 36 = readBytes t 0 36 := by
    have := readBytes_shift pre t 0 36
    simpa using this
  rw [nextRecord] at h ⊢
  rw [r1]
  cases hh : readBytes t 0 36 with
  | none => rfl
  | some hdr =>
    rw [hh] at h
    simp only at h ⊢
    by_cases hmv : dec (hdr.take 4) = kMagic ∧ dec ((hdr.drop 4).take 2) = kVersion
    · rw [if_pos hmv] at h ⊢
      cases hb : readBytes t (0 + 36)
          (dec ((hdr.drop 16).take 4) + dec ((hdr.drop 20).take 4) +
            dec ((hdr.drop 24).take 4)) with
      | none =>
        have r2 : readBytes (pre ++ t) (pre.length + 36)
            (dec ((hdr.drop 16).take 4) + dec ((hdr.drop 20).take 4) +
              dec ((hdr.drop 24).take 4)) = none := by
          rw [readBytes_shift pre t 36]
          simpa using hb
        rw [r2]
      | some body =>
        rw [hb] at h
        simp at h
    · rw [if_neg hmv]

theorem replayGo_of_none (f : List Nat) (fuel pos : Nat)
    (h : nextRecord f pos = none) : replayGo f fuel pos = [] := by
  cases fuel with
  | zero => rfl
  | succ fuel => simp only [replayGo, h]

theorem replayGo_of_some (f : List Nat) (fuel pos pos2 : Nat) (r : WalRecord)
    (h : nextRecord f pos = some (r, pos2)) :
    replayGo f (fuel + 1) pos = r :: replayGo f fuel pos2 := by
  simp only [replayGo, h]

theorem replayGo_exact (rs : List WalRecord) (t : List Nat) :
    ∀ (pre : List Nat) (fuel : Nat), rs.length < fuel →
      (∀ r ∈ rs, wfRecord r) → nextRecord t 0 = none →
      replayGo (pre ++ ((rs.map encodeRecord).flatten ++ t)) fuel
        pre.length = rs := by
  induction rs with
  | nil =>
    intro pre fuel _ _ ht
    apply replayGo_of_none
    simp only [List.map_nil, List.flatten_nil, List.nil_append]
    exact nextRecord_shift_none pre t ht
  | cons r rs ih =>
    intro pre fuel hfuel hwf ht
    cases fuel with
    | zero => simp at hfuel
    | succ fuel =>
      have hfileshape : pre ++ (((r :: rs).map encodeRecord).flatten ++ t) =
          pre ++ (encodeRecord r ++ ((rs.map encodeRecord).flatten ++ t)) := by
        simp [List.map_cons, List.flatten_cons, List.append_assoc]
      rw [hfileshape]
      have hnext := nextRecord_encode pre ((rs.map encodeRecord).flatten ++ t)
        r (hwf r (by simp))
      rw [replayGo_of_some _ fuel _ _ r hnext]
      congr 1
      have hre : pre ++ (encodeRecord r ++
          ((rs.map encodeRecord).flatten ++ t)) =
          (pre ++ encodeRecord r) ++ ((rs.map encodeRecord).flatten ++ t) :=
        (List.append_assoc _ _ _).symm
      rw [hre, show pre.length + (encodeRecord r).length =
        (pre ++ encodeRecord r).length from (List.length_append _ _).symm]
      exact ih (pre ++ encodeRecord r) fuel (by simp at hfuel; omega)
        (fun r2 h2 => hwf r2 (by simp [h2])) ht

theorem encodeRecord_length_pos (r : WalRecord) :
    1 ≤ (encodeRecord r).length := by
  rw [encodeRecord_split, List.length_append, hdrBytes_length]
  omega

theorem flatten_length_ge (rs : List WalRecord) :
    rs.length ≤ ((rs.map encodeRecord).flatten).length := by
  induction rs with
  | nil => simp
  | cons r rs ih =>
    rw [List.map_cons, List.flatten_cons, List.length_append, List.length_cons]
    have := encodeRecord_length_pos r
    omega

/-- Claim C7: a WAL file made of well-formed records followed by a
malformed tail (any tail on which `WalReader::next` signals end of stream:
short header, short body, or magic/version mismatch) replays to exactly
the list of well-formed records — the reader stops cleanly at the first
malformed position. -/
theorem wal_replay_truncated (rs : List WalRecord) (t : List Nat)
    (hwf : ∀ r ∈ rs, wfRecord r) (ht : nextRecord t 0 = none) :
    Wal.replay ((rs.map encodeRecord).flatten ++ t) 0 = rs := by
  rw [Wal.replay]
  have hfuel : rs.length < ((rs.map encodeRecord).flatten ++ t).length + 1 := by
    have := flatten_length_ge rs
    simp only [List.length_append]
    omega
  have h := replayGo_exact rs t [] _ hfuel hwf ht
  simpa using h

/-- The three-record WAL file of the truncated-tail scenario, cut 5 bytes
short of its full length. -/
def truncWal : List Nat :=
  (encodeRecord wr1 ++ (encodeRecord wr2 ++ encodeRecord wr3)).take
    ((encodeRecord wr1 ++ (encodeRecord wr2 ++ encodeRecord wr3)).length - 5)

/-- Witness for C7: appending three records and truncating the file by 5
bytes makes replay from offset 0 yield exactly the first two records. -/
theorem wal_replay_truncated_witness :
    (∀ r ∈ [wr1, wr2], wfRecord r) ∧
    nextRecord ((encodeRecord wr3).take ((encodeRecord wr3).length - 5))
      0 = none ∧
    Wal.replay truncWal 0 = [wr1, wr2] := by
  refine ⟨by decide, by decide, ?_⟩
  have hfile : truncWal = ([wr1, wr2].map encodeRecord).flatten ++
      (encodeRecord wr3).take ((encodeRecord wr3).length - 5) := by decide
  rw [hfile]
  exact wal_replay_truncated [wr1, wr2] _ (by decide) (by decide)

end VixSync
